import Mathlib

/-!
Verification of gulp-run (src/index.js): a gulp plugin that pipes vinyl
files through shell commands.  The runner is embedded shallowly: the
per-file transform (`stream._transform`) becomes a function from the
incoming file and the child's stdout chunk deliveries to an ordered trace
of the actions the stage performs; the one-shot `stream.exec` becomes a
function describing the single spawn, the stdin close, and the produced
vinyl file; `tee` becomes a chunk-sequence transformer.  The command
parser lives in lib/command-parser, which is not part of src/, so it is
modelled from the specification's grammar.
-/

namespace GulpRun

/-- Contents of a vinyl file, as `stream._transform` discriminates it via
the `isNull` / `isStream` / `isBuffer` predicates (src/index.js lines
70, 80, 88).  `other` is any representation for which all three
predicates are false (the unhandled TODO case at lines 107-110).
A stream is identified by a numeric id standing for the underlying
readable object. -/
inductive Contents where
  | null : Contents
  | buffer (data : String) : Contents
  | stream (sid : Nat) : Contents
  | other : Contents
deriving DecidableEq, Repr

/-- A vinyl file: a path and a contents slot.  The runner mutates
`contents` in place and forwards the same object; in the embedding the
forwarded file is the record with only `contents` changed. -/
structure VinylFile where
  path : String
  contents : Contents
deriving DecidableEq, Repr

def VinylFile.isNull (f : VinylFile) : Bool :=
  match f.contents with
  | .null => true
  | _ => false

def VinylFile.isStream (f : VinylFile) : Bool :=
  match f.contents with
  | .stream _ => true
  | _ => false

def VinylFile.isBuffer (f : VinylFile) : Bool :=
  match f.contents with
  | .buffer _ => true
  | _ => false

/-- The process environment: the PATH variable plus the remaining
variables (name-value pairs), enough to express the PATH update that
`run` performs at src/index.js lines 47-48. -/
structure Env where
  PATH : String
  vars : List (String × String)
deriving DecidableEq, Repr

/-- What `run` does to the environment (src/index.js lines 47-48):
`var env = process.env; env.PATH = './node_modules/.bin:' + env.PATH;`.
`env` is the very same object as `process.env`, so the assignment
mutates the process-wide environment in place.  The result is the pair
(environment the children are spawned with, value of `process.env`
after `run` returns) — by construction the same value. -/
def runEnvSetup (processEnv : Env) : Env × Env :=
  let e : Env := { processEnv with PATH := "./node_modules/.bin:" ++ processEnv.PATH }
  (e, e)

/-- One observable action of the transform stage, in the order the
event loop performs them.  `stdoutChunk` is the `readable` handler
consuming one delivered chunk; `stdoutEnd` is the `end` handler firing;
`stageError` would be an error emitted on the stage's error channel
(the code never emits one). -/
inductive Event where
  | spawn (cmd : String) (args : List String) (env : Env) : Event
  | pipeStdin : Event
  | push (f : VinylFile) : Event
  | done : Event
  | stdoutChunk (c : String) : Event
  | stdoutEnd : Event
  | stageError (msg : String) : Event
deriving DecidableEq, Repr

/-- Shallow embedding of `stream._transform` (src/index.js lines 68-110)
applied to one file.  `sid` is the stdout stream id of the child that
would be spawned for this file; `chunks` are the chunks the child's
stdout delivers, in delivery order, before its end event.

* null file: push it unchanged, call done — no spawn (lines 70-74);
* otherwise spawn the child and pipe the file into its stdin
  (lines 76-77), then branch:
* stream file: set contents to the child's stdout, push, done — the
  trace does not depend on `chunks`, the stage never waits for the
  child's output (lines 80-85);
* buffer file: the readable handler concatenates each delivered chunk
  onto the accumulating buffer; the end handler pushes the file with
  the concatenated contents and calls done (lines 88-105);
* anything else: nothing further happens — no push, no done, no error
  (the TODO at lines 107-110). -/
def transformTrace (cmd : String) (args : List String) (env : Env)
    (f : VinylFile) (sid : Nat) (chunks : List String) : List Event :=
  match f.contents with
  | .null => [.push f, .done]
  | .stream _ =>
      [.spawn cmd args env, .pipeStdin,
       .push { f with contents := .stream sid }, .done]
  | .buffer _ =>
      [.spawn cmd args env, .pipeStdin]
        ++ chunks.map Event.stdoutChunk
        ++ [.stdoutEnd, .push { f with contents := .buffer (String.join chunks) }, .done]
  | .other => [.spawn cmd args env, .pipeStdin]

/-- How many times the trace calls the completion callback `done`. -/
def doneCount : List Event → Nat
  | [] => 0
  | Event.done :: t => doneCount t + 1
  | _ :: t => doneCount t

/-- How many child processes the trace spawns. -/
def spawnCount : List Event → Nat
  | [] => 0
  | Event.spawn _ _ _ :: t => spawnCount t + 1
  | _ :: t => spawnCount t

/-- How many times the trace emits a stdout-end event. -/
def endCount : List Event → Nat
  | [] => 0
  | Event.stdoutEnd :: t => endCount t + 1
  | _ :: t => endCount t

/-- How many errors the trace emits on the stage's error channel. -/
def stageErrorCount : List Event → Nat
  | [] => 0
  | Event.stageError _ :: t => stageErrorCount t + 1
  | _ :: t => stageErrorCount t

/-- The files the trace pushes downstream, in order. -/
def pushedFiles : List Event → List VinylFile
  | [] => []
  | Event.push f :: t => f :: pushedFiles t
  | _ :: t => pushedFiles t

/-- The events of the trace that happen strictly before the child's
end-of-output event. -/
def beforeEnd : List Event → List Event
  | [] => []
  | Event.stdoutEnd :: _ => []
  | e :: t => e :: beforeEnd t

/-- Listeners registered on the spawned child or its stdio streams.
`childError` would be an `error` listener on the child process itself,
where a spawn failure is reported. -/
inductive Listener where
  | stdoutReadable : Listener
  | stdoutEnd : Listener
  | childError : Listener
  | stdinError : Listener
deriving DecidableEq, Repr

/-- The listeners `stream._transform` registers for a file of the given
contents: only `readable` and `end` on the child's stdout, and only in
the buffer branch (src/index.js lines 91, 100).  No branch attaches an
`error` listener to the child or its stdin. -/
def transformListeners (c : Contents) : List Listener :=
  match c with
  | .buffer _ => [.stdoutReadable, .stdoutEnd]
  | _ => []

/-- The listeners `stream.exec` registers on its spawned child
(src/index.js lines 136-154): none. -/
def execListeners : List Listener := []

/-- Shallow embedding of `tee` (src/index.js lines 161-170) as a
function on the sequence of chunks flowing through it: for each chunk
(in order) it writes the string `[title] ` followed by the chunk to the
parent's stdout, and pushes the chunk itself downstream unchanged.
The result is (chunks pushed downstream, text written to stdout). -/
def tee (title : String) (chunks : List String) : List String × String :=
  (chunks, String.join (chunks.map (fun c => "[" ++ title ++ "] " ++ c)))

/-- What one call of `stream.exec` (src/index.js lines 136-154) does,
given the chunk sequence `childStdout` the child's stdout delivers.
`sid` identifies the readable stream stored as the produced file's
contents (the child's stdout, piped through `tee` when `print`). -/
structure ExecResult where
  /-- the child processes spawned: (program, args, environment) -/
  spawns : List (String × List String × Env)
  /-- data written to the child's stdin before it is closed -/
  stdinWritten : String
  /-- whether the child's stdin was closed right after spawning -/
  stdinEnded : Bool
  /-- the vinyl files emitted by the returned stream, in order -/
  files : List VinylFile
  /-- the chunks the emitted file's contents stream delivers when drained -/
  fileChunks : List String
  /-- text written to the parent's stdout -/
  echoed : String
deriving DecidableEq, Repr

/-- Shallow embedding of `stream.exec`: spawn one child, call
`child.stdin.end()` at once (nothing ever written), build one vinyl
file whose path is the program name and whose contents is the child's
stdout (through `tee cmd` when `print`), and emit exactly that file. -/
def exec (cmd : String) (args : List String) (env : Env)
    (print : Bool) (sid : Nat) (childStdout : List String) : ExecResult :=
  { spawns := [(cmd, args, env)]
    stdinWritten := ""
    stdinEnded := true
    files := [{ path := cmd, contents := .stream sid }]
    fileChunks := if print then (tee cmd childStdout).1 else childStdout
    echoed := if print then (tee cmd childStdout).2 else "" }

/-! ## The command parser

`run` obtains the program and arguments from `parser.parse(command)`
(src/index.js lines 36-41).  The parser itself lives in
lib/command-parser, which is not among the provided sources, so it is
modelled from the specification.

Modelled from the spec: the grammar of section 4.1 —

  command    := program SPACE* arglist
  program    := token (bare-word rules)
  SPACE      := space or tab
  arglist    := (SPACE* argument)*
  argument   := quoted_double | quoted_single | bare
  bare       := one-or-more characters excluding SPACE and quotes
  quoted_double := a double-quote, then escaped characters or
                   non-quote non-backslash characters, then a double-quote
  quoted_single := a single-quote, then non-quote characters, then a
                   single-quote
  escaped_char  := a backslash followed by any character

with each token reduced to its literal text, quoting and escapes
removed, and malformed input (unterminated quote, empty command)
rejected as a whole: the result is an `Option CommandSpec`, never a
partial value. -/

/-- Immutable result of parsing: one program name and the arguments in
source order. -/
structure CommandSpec where
  program : String
  arguments : List String
deriving DecidableEq, Repr

def isSpaceChar (c : Char) : Bool := c = ' ' || c = '\t'

/-- A character a bare token may contain: not whitespace, not a quote. -/
def isBareChar (c : Char) : Bool := !isSpaceChar c && c ≠ '\'' && c ≠ '"'

/-- The maximal leading run of bare characters, and the rest. -/
def takeBare : List Char → List Char × List Char
  | [] => ([], [])
  | c :: rest =>
    if isBareChar c then
      (c :: (takeBare rest).1, (takeBare rest).2)
    else ([], c :: rest)

/-- Consume up to and including the closing single quote; the text in
between is literal.  Fails when the quote is unterminated. -/
def takeSingle : List Char → Option (List Char × List Char)
  | [] => none
  | c :: rest =>
    if c = '\'' then some ([], rest)
    else
      match takeSingle rest with
      | none => none
      | some (s, r) => some (c :: s, r)

/-- Consume up to and including the closing double quote, resolving a
backslash escape to the escaped character.  Fails when the quote (or an
escape) is unterminated. -/
def takeDouble : List Char → Option (List Char × List Char)
  | [] => none
  | c :: rest =>
    if c = '"' then some ([], rest)
    else if c = '\\' then
      match rest with
      | [] => none
      | d :: rest2 =>
        match takeDouble rest2 with
        | none => none
        | some (s, r) => some (d :: s, r)
    else
      match takeDouble rest with
      | none => none
      | some (s, r) => some (c :: s, r)

/-- Drop leading spaces and tabs. -/
def skipSpaces : List Char → List Char
  | [] => []
  | c :: rest => if isSpaceChar c then skipSpaces rest else c :: rest

/-- One argument: single-quoted, double-quoted, or bare (nonempty). -/
def parseArg : List Char → Option (List Char × List Char)
  | [] => none
  | c :: rest =>
    if c = '\'' then takeSingle rest
    else if c = '"' then takeDouble rest
    else
      match takeBare (c :: rest) with
      | ([], _) => none
      | (s, r) => some (s, r)

/-- The argument list: (SPACE* argument)* up to the end of input.  The
fuel bounds the number of arguments; each successfully parsed argument
consumes at least one character, so `input length + 1` is always
enough.  With exhausted fuel and input remaining the parse fails
rather than succeed partially. -/
def parseArgs : Nat → List Char → Option (List String)
  | 0, cs => if skipSpaces cs = [] then some [] else none
  | fuel + 1, cs =>
    match skipSpaces cs with
    | [] => some []
    | c :: rest =>
      match parseArg (c :: rest) with
      | none => none
      | some (a, r) =>
        match parseArgs fuel r with
        | none => none
        | some as => some (String.mk a :: as)

/-- Modelled from the spec: `parse` of lib/command-parser (absent from
src/), reduced to the `CommandSpec` that `run` extracts from the parse
tree at src/index.js lines 36-41.  The program is the leading bare
token (empty means reject), then the arguments; any violation of the
grammar yields `none` — never a partial result. -/
def parse (command : String) : Option CommandSpec :=
  match takeBare command.data with
  | ([], _) => none
  | (p, rest) =>
    match parseArgs (rest.length + 1) rest with
    | none => none
    | some args => some ⟨String.mk p, args⟩

/-! ## Helper lemmas about traces -/

theorem doneCount_chunks_append (chunks : List String) (t : List Event) :
    doneCount (chunks.map Event.stdoutChunk ++ t) = doneCount t := by
  induction chunks with
  | nil => rfl
  | cons c cs ih => simpa [doneCount] using ih

theorem spawnCount_chunks_append (chunks : List String) (t : List Event) :
    spawnCount (chunks.map Event.stdoutChunk ++ t) = spawnCount t := by
  induction chunks with
  | nil => rfl
  | cons c cs ih => simpa [spawnCount] using ih

theorem stageErrorCount_chunks_append (chunks : List String) (t : List Event) :
    stageErrorCount (chunks.map Event.stdoutChunk ++ t) = stageErrorCount t := by
  induction chunks with
  | nil => rfl
  | cons c cs ih => simpa [stageErrorCount] using ih

theorem pushedFiles_chunks_append (chunks : List String) (t : List Event) :
    pushedFiles (chunks.map Event.stdoutChunk ++ t) = pushedFiles t := by
  induction chunks with
  | nil => rfl
  | cons c cs ih => simpa [pushedFiles] using ih

theorem doneCount_chunks (chunks : List String) :
    doneCount (chunks.map Event.stdoutChunk) = 0 := by
  simpa using doneCount_chunks_append chunks []

theorem pushedFiles_chunks (chunks : List String) :
    pushedFiles (chunks.map Event.stdoutChunk) = [] := by
  simpa using pushedFiles_chunks_append chunks []

theorem beforeEnd_chunks_append (chunks : List String) (t : List Event) :
    beforeEnd (chunks.map Event.stdoutChunk ++ Event.stdoutEnd :: t)
      = chunks.map Event.stdoutChunk := by
  induction chunks with
  | nil => rfl
  | cons c cs ih => simpa [beforeEnd] using ih

/-! ## The claims -/

/-- C2. Buffered mode: the stage concatenates the child's output chunks
in delivery order into one buffer; the file — with contents replaced by
that buffer — is pushed downstream, and done is called, only after the
end-of-output event: the whole trace is spawn, pipe stdin, the chunk
arrivals in order, end, push, done; exactly one file is pushed, with
contents the in-order concatenation; done is called exactly once; and
no push and no done occurs strictly before the end-of-output event. -/
theorem buffered_mode_waits_for_end (cmd : String) (args : List String) (env : Env)
    (p d : String) (sid : Nat) (chunks : List String) :
    transformTrace cmd args env ⟨p, Contents.buffer d⟩ sid chunks
        = Event.spawn cmd args env :: Event.pipeStdin ::
            (chunks.map Event.stdoutChunk ++ Event.stdoutEnd ::
              Event.push ⟨p, Contents.buffer (String.join chunks)⟩ :: [Event.done])
      ∧ pushedFiles (transformTrace cmd args env ⟨p, Contents.buffer d⟩ sid chunks)
          = [⟨p, Contents.buffer (String.join chunks)⟩]
      ∧ doneCount (transformTrace cmd args env ⟨p, Contents.buffer d⟩ sid chunks) = 1
      ∧ pushedFiles (beforeEnd (transformTrace cmd args env ⟨p, Contents.buffer d⟩ sid chunks))
          = []
      ∧ doneCount (beforeEnd (transformTrace cmd args env ⟨p, Contents.buffer d⟩ sid chunks))
          = 0 := by
  have h : transformTrace cmd args env ⟨p, Contents.buffer d⟩ sid chunks
      = Event.spawn cmd args env :: Event.pipeStdin ::
          (chunks.map Event.stdoutChunk ++ Event.stdoutEnd ::
            Event.push ⟨p, Contents.buffer (String.join chunks)⟩ :: [Event.done]) := rfl
  refine ⟨h, ?_, ?_, ?_, ?_⟩
  · rw [h]
    simp [pushedFiles, pushedFiles_chunks_append]
  · rw [h]
    simp [doneCount, doneCount_chunks_append]
  · rw [h]
    simp [beforeEnd, beforeEnd_chunks_append, pushedFiles, pushedFiles_chunks]
  · rw [h]
    simp [beforeEnd, beforeEnd_chunks_append, doneCount, doneCount_chunks]

/-- C3. Streaming mode: the stage replaces the file's contents with the
child's stdout stream and pushes the same file (same path) at once; the
trace is exactly spawn, pipe stdin, push, done, whatever the child
later outputs — it contains no end-of-output wait (the right-hand side
does not mention `chunks`), exactly one file is pushed and done is
called exactly once. -/
theorem streaming_mode_forwards_immediately (cmd : String) (args : List String) (env : Env)
    (p : String) (s sid : Nat) (chunks : List String) :
    transformTrace cmd args env ⟨p, Contents.stream s⟩ sid chunks
        = [Event.spawn cmd args env, Event.pipeStdin,
           Event.push ⟨p, Contents.stream sid⟩, Event.done]
      ∧ pushedFiles (transformTrace cmd args env ⟨p, Contents.stream s⟩ sid chunks)
          = [⟨p, Contents.stream sid⟩]
      ∧ doneCount (transformTrace cmd args env ⟨p, Contents.stream s⟩ sid chunks) = 1
      ∧ endCount (transformTrace cmd args env ⟨p, Contents.stream s⟩ sid chunks) = 0 := by
  exact ⟨rfl, rfl, rfl, rfl⟩

/-- C6. Null passthrough: for a null file the trace is exactly push of
the very same file followed by done — no field modified, nothing else
happens — and no child process is spawned. -/
theorem null_file_passthrough (cmd : String) (args : List String) (env : Env)
    (p : String) (sid : Nat) (chunks : List String) :
    transformTrace cmd args env ⟨p, Contents.null⟩ sid chunks
        = [Event.push ⟨p, Contents.null⟩, Event.done]
      ∧ spawnCount (transformTrace cmd args env ⟨p, Contents.null⟩ sid chunks) = 0 := by
  exact ⟨rfl, rfl⟩

/-- C4. One-shot execution: `exec` spawns exactly one child with the
parsed program, arguments and environment, writes nothing to the
child's stdin and closes it immediately, and emits exactly one vinyl
file whose contents stream delivers exactly the child's raw stdout
chunks (whether or not the output is echoed). -/
theorem exec_one_shot (cmd : String) (args : List String) (env : Env)
    (print : Bool) (sid : Nat) (childStdout : List String) :
    (exec cmd args env print sid childStdout).spawns = [(cmd, args, env)]
      ∧ (exec cmd args env print sid childStdout).stdinWritten = ""
      ∧ (exec cmd args env print sid childStdout).stdinEnded = true
      ∧ (exec cmd args env print sid childStdout).files
          = [⟨cmd, Contents.stream sid⟩]
      ∧ (exec cmd args env print sid childStdout).fileChunks = childStdout := by
  refine ⟨rfl, rfl, rfl, rfl, ?_⟩
  cases print with
  | false => rfl
  | true => rfl

/-- C5, the code's behavior at the failing input: `tee` prepends the
title per delivered chunk, not per output line.  On the single-chunk
output of `echo Hello World` this coincides with the documented
per-line behavior, but when one chunk carries two lines the written
text keeps the second line unprefixed. -/
theorem tee_prepends_per_chunk_not_per_line :
    (exec "echo" ["Hello", "World"] ⟨"/usr/bin", []⟩ true 0 ["Hello World\n"]).echoed
        = "[echo] Hello World\n"
      ∧ (exec "echo" ["Hello", "World"] ⟨"/usr/bin", []⟩ true 0 ["a\nb\n"]).echoed
          = "[echo] a\nb\n"
      ∧ "[echo] a\nb\n" ≠ "[echo] a\n[echo] b\n" := by
  refine ⟨?_, ?_, ?_⟩
  · rfl
  · rfl
  · decide

/-- C7, counterexample to "constructing a command does not mutate the
shared process-wide environment map": after `run` returns,
`process.env` itself carries the prepended PATH — it is no longer the
ambient value — and a second construction prepends the directory a
second time onto the once-mutated map. -/
theorem run_mutates_process_env_cex :
    (runEnvSetup ⟨"/usr/bin", []⟩).2 = ⟨"./node_modules/.bin:/usr/bin", []⟩
      ∧ Env.mk "./node_modules/.bin:/usr/bin" [] ≠ Env.mk "/usr/bin" []
      ∧ (runEnvSetup (runEnvSetup ⟨"/usr/bin", []⟩).2).1.PATH
          = "./node_modules/.bin:./node_modules/.bin:/usr/bin" := by
  refine ⟨rfl, ?_, rfl⟩
  decide

/-- C7 as amended: every child is spawned with an environment whose
PATH is the ambient PATH with `./node_modules/.bin` prepended and whose
other variables are unchanged; but this environment is the shared
process environment mutated in place — after construction `process.env`
equals the child environment and its PATH is no longer the ambient
one. -/
theorem run_env_prepends_and_mutates (processEnv : Env) :
    (runEnvSetup processEnv).1.PATH = "./node_modules/.bin:" ++ processEnv.PATH
      ∧ (runEnvSetup processEnv).1.vars = processEnv.vars
      ∧ (runEnvSetup processEnv).2 = (runEnvSetup processEnv).1
      ∧ (runEnvSetup processEnv).2.PATH ≠ processEnv.PATH := by
  refine ⟨rfl, rfl, rfl, ?_⟩
  intro heq
  have hlen := congrArg String.length heq
  rw [runEnvSetup] at hlen
  simp [String.length_append] at hlen
  exact absurd hlen (by decide)

/-- C8, counterexample to "done is called exactly once regardless of
the file's representation": for a file that is neither null nor a
stream nor a buffer, the transform returns after spawning without ever
calling done. -/
theorem done_not_called_for_other_cex :
    doneCount (transformTrace "cat" [] ⟨"/usr/bin", []⟩ ⟨"f.txt", Contents.other⟩ 0 []) = 0
      ∧ (0 : Nat) ≠ 1 := by
  exact ⟨rfl, by decide⟩

/-- C8 as amended: the completion callback is called exactly once for a
null, stream or buffer file, and zero times for any other
representation. -/
theorem done_called_once_except_other (cmd : String) (args : List String) (env : Env)
    (f : VinylFile) (sid : Nat) (chunks : List String) :
    doneCount (transformTrace cmd args env f sid chunks)
      = if f.contents = Contents.other then 0 else 1 := by
  rcases f with ⟨p, c⟩
  cases c with
  | null => rfl
  | buffer d =>
    have h : transformTrace cmd args env ⟨p, Contents.buffer d⟩ sid chunks
        = Event.spawn cmd args env :: Event.pipeStdin ::
            (chunks.map Event.stdoutChunk ++ Event.stdoutEnd ::
              Event.push ⟨p, Contents.buffer (String.join chunks)⟩ :: [Event.done]) := rfl
    rw [h]
    simp [doneCount, doneCount_chunks_append]
  | stream s => rfl
  | other => rfl

/-- C9, the code's behavior: no branch of the transform, and not the
one-shot `exec`, attaches an `error` listener to the spawned child, and
the stage's trace never carries an error event — a spawn failure
(program not found, permission denied) therefore has nowhere to surface
on the stage's error channel, contrary to the documented failure
semantics. -/
theorem spawn_error_never_on_stage (cmd : String) (args : List String) (env : Env)
    (f : VinylFile) (sid : Nat) (chunks : List String) :
    stageErrorCount (transformTrace cmd args env f sid chunks) = 0
      ∧ Listener.childError ∉ transformListeners f.contents
      ∧ Listener.childError ∉ execListeners := by
  rcases f with ⟨p, c⟩
  cases c with
  | null => exact ⟨rfl, by simp [transformListeners], by simp [execListeners]⟩
  | buffer d =>
    refine ⟨?_, by simp [transformListeners], by simp [execListeners]⟩
    have h : transformTrace cmd args env ⟨p, Contents.buffer d⟩ sid chunks
        = Event.spawn cmd args env :: Event.pipeStdin ::
            (chunks.map Event.stdoutChunk ++ Event.stdoutEnd ::
              Event.push ⟨p, Contents.buffer (String.join chunks)⟩ :: [Event.done]) := rfl
    rw [h]
    simp [stageErrorCount, stageErrorCount_chunks_append]
  | stream s => exact ⟨rfl, by simp [transformListeners], by simp [execListeners]⟩
  | other => exact ⟨rfl, by simp [transformListeners], by simp [execListeners]⟩

/-- C10. For every non-null file the transform spawns the child and
pipes the file into its stdin before branching on the representation
(the trace starts with spawn then pipe-stdin, and exactly one child is
spawned); and for an unrecognized representation the trace is exactly
those two events — a child is created, yet nothing is pushed, done is
never called and no error is emitted. -/
theorem spawn_precedes_branching (cmd : String) (args : List String) (env : Env)
    (f : VinylFile) (sid : Nat) (chunks : List String) :
    (f.isNull = false →
        (transformTrace cmd args env f sid chunks).take 2
            = [Event.spawn cmd args env, Event.pipeStdin]
          ∧ spawnCount (transformTrace cmd args env f sid chunks) = 1)
      ∧ (f.contents = Contents.other →
          transformTrace cmd args env f sid chunks
            = [Event.spawn cmd args env, Event.pipeStdin]) := by
  rcases f with ⟨p, c⟩
  cases c with
  | null =>
    refine ⟨fun hn => ?_, fun ho => ?_⟩
    · simp [VinylFile.isNull] at hn
    · exact nomatch ho
  | buffer d =>
    refine ⟨fun _ => ⟨rfl, ?_⟩, fun ho => nomatch ho⟩
    have h : transformTrace cmd args env ⟨p, Contents.buffer d⟩ sid chunks
        = Event.spawn cmd args env :: Event.pipeStdin ::
            (chunks.map Event.stdoutChunk ++ Event.stdoutEnd ::
              Event.push ⟨p, Contents.buffer (String.join chunks)⟩ :: [Event.done]) := rfl
    rw [h]
    simp [spawnCount, spawnCount_chunks_append]
  | stream s =>
    exact ⟨fun _ => ⟨rfl, rfl⟩, fun ho => nomatch ho⟩
  | other =>
    exact ⟨fun _ => ⟨rfl, rfl⟩, fun _ => rfl⟩

/-! ## Parser claims -/

theorem takeBare_bare (cs : List Char) : ∀ c ∈ (takeBare cs).1, isBareChar c = true := by
  induction cs with
  | nil =>
    intro c hc
    simp [takeBare] at hc
  | cons a rest ih =>
    intro c hc
    cases h : isBareChar a with
    | true =>
      rw [takeBare, if_pos h] at hc
      rcases List.mem_cons.mp hc with rfl | hc2
      · exact h
      · exact ih c hc2
    | false =>
      rw [takeBare, if_neg (by simp [h])] at hc
      simp at hc

/-- C1. Parsing the command `name 'a b' "c\"d"` yields exactly the
program `name` and the arguments `a b` and `c"d` in source order —
interior whitespace inside quotes preserved, nothing trimmed, quoting
and escapes removed; and whenever `parse` succeeds it yields a complete
`CommandSpec`: one program, which is nonempty and free of whitespace
and quote characters, together with the (possibly empty) argument list
— the `Option` result admits no partial success. -/
theorem parse_round_trip_and_complete :
    parse "name 'a b' \"c\\\"d\"" = some ⟨"name", ["a b", "c\"d"]⟩
      ∧ ∀ s spec, parse s = some spec →
          spec.program ≠ "" ∧ ∀ c ∈ spec.program.data, isBareChar c = true := by
  constructor
  · rfl
  · intro s spec h
    unfold parse at h
    rcases htb : takeBare s.data with ⟨p, rest⟩
    rw [htb] at h
    cases p with
    | nil => exact absurd h (by simp)
    | cons a as =>
      dsimp only at h
      cases hargs : parseArgs (rest.length + 1) rest with
      | none =>
        rw [hargs] at h
        exact absurd h (by simp)
      | some args =>
        rw [hargs] at h
        injection h with h
        subst h
        have hp : (takeBare s.data).1 = a :: as := by rw [htb]
        constructor
        · intro hemp
          exact absurd (congrArg String.data hemp) (by simp)
        · intro c hc
          refine takeBare_bare s.data c ?_
          rw [hp]
          exact hc

end GulpRun
